import Mathlib

/-!
# Verification of the background job hub (`internal/jobs/hub.go`)

Shallow embedding of the job hub: `Job`, `Hub`, and their operations
(`newJob`, `SetProgress`, `Cancel`, `Submit`, `Get`, `Stop`, `execute`),
translated from the Go source.

Modelling conventions:
* A Go buffered channel is a `Channel α`: a FIFO buffer (list), a capacity,
  and a closed flag.  A `select`-with-`default` send is `trySendFlag`
  (drops when full, panics when closed — Go panics on a send to a closed
  channel even inside `select`).  An unconditional send is `send`, which
  in this single-producer snapshot (no concurrent reader) reports
  `wouldBlock` when the buffer is full, and `panicked` when closed.
  `close` of an already-closed channel panics.
* Go `error` values are modelled as `Option String` (`none` = `nil`).
* A run-time panic is modelled as `Option`-failure (`none`) or as an
  explicit `Fault` value in `Except`.
* `context.WithCancel` is modelled as a boolean `cancelled` flag on the
  job; `Cancel` sets it.
* `util.GenerateID` (16 crypto-random bytes, hex) is modelled by taking
  the fresh identifier as a parameter of `newJob`.
* A job's work function (`JobFunc`) is modelled as `Work`: the sequence
  of `SetProgress` arguments it makes in program order, followed by its
  returned error.  It is kept outside the `Job` structure (Go stores it
  as the unexported `work` field) so that `Job` stays decidable.
* `slog` logging is modelled by a `warnings` list on the hub recording
  warning-level logs (`Submit`'s "job queue full").  Info/error logs
  carry no state and are omitted.
* Go pointer sharing (`*Job` flowing through the submit channel) is
  modelled by passing job identifiers through the queue while the
  registry holds the job state.
-/

/-- A Go buffered channel: FIFO buffer, capacity, closed flag. -/
structure Channel (α : Type) where
  buffer : List α
  capacity : Nat
  closed : Bool
deriving DecidableEq

namespace Channel

/-- Non-blocking send (`select { case ch <- v: default: }`).
`none` models the panic on a closed channel; otherwise returns the new
channel and whether the value was actually enqueued (`false` = dropped). -/
def trySendFlag (c : Channel α) (a : α) : Option (Channel α × Bool) :=
  if c.closed then none
  else if c.buffer.length < c.capacity then
    some ({ c with buffer := c.buffer ++ [a] }, true)
  else
    some (c, false)

/-- Outcome of an unconditional (blocking) channel send. -/
inductive SendOutcome (α : Type) where
  | sent (c : Channel α)
  | wouldBlock
  | panicked
deriving DecidableEq

/-- Unconditional send (`ch <- v`).  Panics when closed; with a full
buffer and no concurrent reader the producer blocks. -/
def send (c : Channel α) (a : α) : SendOutcome α :=
  if c.closed then .panicked
  else if c.buffer.length < c.capacity then
    .sent { c with buffer := c.buffer ++ [a] }
  else
    .wouldBlock

/-- `close(ch)`.  `none` models the panic on closing a closed channel. -/
def closeCh (c : Channel α) : Option (Channel α) :=
  if c.closed then none else some { c with closed := true }

/-- Outcome of a channel receive. -/
inductive RecvOutcome (α : Type) where
  | got (a : α) (c : Channel α)
  | closedEmpty
  | wouldBlock
deriving DecidableEq

/-- Receive (`<-ch`): yields the oldest buffered value; on an empty
closed channel yields the closed-stream signal (`ok = false` in Go); on
an empty open channel the reader blocks. -/
def recv (c : Channel α) : RecvOutcome α :=
  match c.buffer with
  | a :: rest => .got a { c with buffer := rest }
  | [] => if c.closed then .closedEmpty else .wouldBlock

end Channel

/-- `JobUpdate`: a progress update on a job's update stream. -/
structure JobUpdate where
  Progress : Int
  Done : Bool
  Error : Option String
deriving DecidableEq

/-- `Job`: a background job.  `cancelled` models the job's cancellation
context; `updates` is the buffered update channel (capacity 100).
The `work` closure and `CreatedAt` timestamp are not modelled as fields
(the work function is passed to `execute` as `Work`; the timestamp is
never read by the hub). -/
structure Job where
  ID : String
  Name : String
  Status : String
  Progress : Int
  Error : Option String
  cancelled : Bool
  updates : Channel JobUpdate
deriving DecidableEq

/-- A job's work function, modelled as the sequence of `SetProgress`
arguments it issues in program order, then the error it returns
(`none` = success). -/
structure Work where
  progressCalls : List Int
  result : Option String
deriving DecidableEq

/-- `newJob(name, work)`: fresh job, status `pending`, update channel of
capacity 100.  The random identifier is a parameter. -/
def newJob (id name : String) : Job :=
  { ID := id
    Name := name
    Status := "pending"
    Progress := 0
    Error := none
    cancelled := false
    updates := { buffer := [], capacity := 100, closed := false } }

namespace Job

/-- `Job.SetProgress(p)`: store `p` in the progress field (under the
job's lock), then try a non-blocking send of a progress-only update,
dropped silently when the buffer is full.  `none` models the panic of
sending on a closed channel. -/
def SetProgress (j : Job) (p : Int) : Option Job :=
  let j1 : Job := { j with Progress := p }
  match j1.updates.trySendFlag { Progress := p, Done := false, Error := none } with
  | none => none
  | some (c, _) => some { j1 with updates := c }

/-- `Job.Cancel()`: trigger the cancellation signal (idempotent). -/
def Cancel (j : Job) : Job :=
  { j with cancelled := true }

end Job

/-- Faults: the ways a (sequential, reader-free) run of the hub's code
fails to return normally. -/
inductive Fault where
  | sendOnClosed
  | closeOfClosed
  | blocksForever
deriving DecidableEq

/-- The work function's body: the sequence of `SetProgress` calls it
makes, threaded through the job state.  `none` models a panic (a
`SetProgress` send on a closed channel). -/
def runWork (j : Job) : List Int → Option Job
  | [] => some j
  | p :: rest =>
    match j.SetProgress p with
    | none => none
    | some j1 => runWork j1 rest

/-- First line of `Hub.execute`: transition the job to `running`. -/
def markRunning (j : Job) : Job :=
  { j with Status := "running" }

/-- Terminal bookkeeping of `Hub.execute` after the work function
returns: `failed` with the error recorded, or `completed` with progress
forced to 100. -/
def afterWork (j : Job) (err : Option String) : Job :=
  match err with
  | some e => { j with Status := "failed", Error := some e }
  | none => { j with Status := "completed", Progress := 100 }

/-- `Hub.execute` up to and including the terminal-update push (the
unconditional send `job.updates <- JobUpdate{...}`), but not the close.
Split out so the interleaving of two concurrent executions of the same
job can be expressed. -/
def executeBody (j : Job) (w : Work) : Except Fault Job :=
  match runWork (markRunning j) w.progressCalls with
  | none => .error .sendOnClosed
  | some j2 =>
    let j3 := afterWork j2 w.result
    match j3.updates.send { Progress := j3.Progress, Done := true, Error := w.result } with
    | .sent c => .ok { j3 with updates := c }
    | .wouldBlock => .error .blocksForever
    | .panicked => .error .sendOnClosed

/-- Final line of `Hub.execute`: `close(job.updates)`. -/
def closeUpdates (j : Job) : Except Fault Job :=
  match j.updates.closeCh with
  | some c => .ok { j with updates := c }
  | none => .error .closeOfClosed

/-- `Hub.execute(job)`: mark running, run the work function, record the
terminal state, push the terminal update, close the stream. -/
def execute (j : Job) (w : Work) : Except Fault Job :=
  (executeBody j w).bind closeUpdates

/-- `Hub`: job registry, admission queue (capacity 100), done channel,
and the warning-level log stream. -/
structure Hub where
  jobs : List (String × Job)
  submit : Channel String
  done : Channel Unit
  warnings : List (String × String)
deriving DecidableEq

/-- `NewHub(logger)`: empty registry, admission queue of capacity 100,
unbuffered done channel. -/
def NewHub : Hub :=
  { jobs := []
    submit := { buffer := [], capacity := 100, closed := false }
    done := { buffer := [], capacity := 0, closed := false }
    warnings := [] }

namespace Hub

/-- `Hub.Submit(job)`: register the job in the registry (map overwrite is
modelled by consing, with lookup finding the newest entry), then try a
non-blocking enqueue; when the queue is full, drop and log a warning.
`none` models the panic of a send on a closed channel. -/
def Submit (h : Hub) (j : Job) : Option Hub :=
  let jobs1 := (j.ID, j) :: h.jobs
  match h.submit.trySendFlag j.ID with
  | none => none
  | some (c, true) => some { h with jobs := jobs1, submit := c }
  | some (c, false) =>
    some { h with jobs := jobs1, submit := c,
                  warnings := h.warnings ++ [ ("job queue full", j.ID) ] }

/-- `Hub.Get(id)`: registry lookup; `none` is Go's `(nil, false)`. -/
def Get (h : Hub) (id : String) : Option Job :=
  (h.jobs.find? (fun e => e.1 = id)).map (fun e => e.2)

/-- `Hub.Stop()`: close the done channel (panic — `none` — when already
closed), then cancel every job in the registry. -/
def Stop (h : Hub) : Option Hub :=
  match h.done.closeCh with
  | none => none
  | some d =>
    some { h with done := d,
                  jobs := h.jobs.map (fun e => (e.1, e.2.Cancel)) }

end Hub

/-- A single client-visible step on one job: a `SetProgress` call from
its work function, a `Cancel`, or a complete dispatch (`execute`) that
returns normally. -/
inductive JStep : Job → Job → Prop where
  | setP (j : Job) (p : Int) (j' : Job) :
      j.SetProgress p = some j' → JStep j j'
  | canc (j : Job) : JStep j j.Cancel
  | exec (j : Job) (w : Work) (j' : Job) :
      execute j w = .ok j' → JStep j j'

/-- Job states reachable from a freshly created job by `JStep` steps. -/
inductive Reach : Job → Prop where
  | fresh (id name : String) : Reach (newJob id name)
  | step {j j' : Job} : Reach j → JStep j j' → Reach j'

/-! ## Concrete sample states (used to exercise the theorems) -/

/-- A freshly created sample job. -/
def jobA : Job := newJob "a" "b"

/-- `execute jobA ⟨[30], none⟩`: the completed job. -/
def jobDone : Job :=
  { ID := "a", Name := "b", Status := "completed", Progress := 100,
    Error := none, cancelled := false,
    updates := { buffer := [⟨30, false, none⟩, ⟨100, true, none⟩],
                 capacity := 100, closed := true } }

/-- `execute jobA ⟨[30], some "boom"⟩`: the failed job. -/
def jobFailed : Job :=
  { ID := "a", Name := "b", Status := "failed", Progress := 30,
    Error := some "boom", cancelled := false,
    updates := { buffer := [⟨30, false, none⟩, ⟨30, true, some "boom"⟩],
                 capacity := 100, closed := true } }

/-- `runWork jobA [10, 20]`: mid-run state after two progress calls. -/
def jobMid : Job :=
  { ID := "a", Name := "b", Status := "pending", Progress := 20,
    Error := none, cancelled := false,
    updates := { buffer := [⟨10, false, none⟩, ⟨20, false, none⟩],
                 capacity := 100, closed := false } }

/-- `jobA.SetProgress 10`. -/
def jobOne : Job :=
  { ID := "a", Name := "b", Status := "pending", Progress := 10,
    Error := none, cancelled := false,
    updates := { buffer := [⟨10, false, none⟩],
                 capacity := 100, closed := false } }

/-- `jobA.SetProgress 50`. -/
def jobFifty : Job :=
  { ID := "a", Name := "b", Status := "pending", Progress := 50,
    Error := none, cancelled := false,
    updates := { buffer := [⟨50, false, none⟩],
                 capacity := 100, closed := false } }

/-- A job whose update channel buffer is full (100 buffered updates). -/
def jobFull : Job :=
  { jobA with
      updates := { buffer := List.replicate 100 ⟨0, false, none⟩,
                   capacity := 100, closed := false } }

/-- `NewHub.Submit jobA`: one registered and queued job. -/
def hubOne : Hub :=
  { jobs := [ ("a", jobA) ],
    submit := { buffer := ["a"], capacity := 100, closed := false },
    done := { buffer := [], capacity := 0, closed := false },
    warnings := [] }

/-- `hubOne.Stop`: the stopped hub with its job cancelled. -/
def hubOneStopped : Hub :=
  { jobs := [ ("a", { jobA with cancelled := true }) ],
    submit := { buffer := ["a"], capacity := 100, closed := false },
    done := { buffer := [], capacity := 0, closed := true },
    warnings := [] }

/-- A hub whose admission queue is full (100 queued identifiers). -/
def hubFull : Hub :=
  { NewHub with
      submit := { buffer := List.replicate 100 "x",
                  capacity := 100, closed := false } }

/-! ## Helper lemmas -/

lemma getLast?_cons_getD (p : Int) (rest : List Int) (d : Int) :
    ((p :: rest).getLast?).getD d = (rest.getLast?).getD p := by
  cases rest with
  | nil => simp
  | cons q t =>
    rw [List.getLast?_cons_cons]
    have : (q :: t).getLast?.isSome := by
      simp [List.getLast?_isSome]
    obtain ⟨a, ha⟩ := Option.isSome_iff_exists.mp this
    simp [ha]

lemma setProgress_eq (j : Job) (p : Int) (hcl : j.updates.closed = false) :
    j.SetProgress p =
      some { j with
              Progress := p,
              updates :=
                if j.updates.buffer.length < j.updates.capacity then
                  { j.updates with
                      buffer := j.updates.buffer ++ [⟨p, false, none⟩] }
                else j.updates } := by
  by_cases hlen : j.updates.buffer.length < j.updates.capacity <;>
    simp [Job.SetProgress, Channel.trySendFlag, hcl, hlen]

lemma setProgress_some {j : Job} {p : Int} {j' : Job}
    (h : j.SetProgress p = some j') :
    j.updates.closed = false ∧ j'.Status = j.Status ∧
      j'.updates.closed = false ∧ j'.Progress = p ∧
      j'.updates.capacity = j.updates.capacity := by
  by_cases hcl : j.updates.closed = false
  · rw [setProgress_eq j p hcl] at h
    obtain rfl := Option.some_injective _ h.symm
    refine ⟨hcl, rfl, ?_, rfl, ?_⟩ <;> (split <;> simp [hcl])
  · exfalso
    have hcl' : j.updates.closed = true := by
      revert hcl; cases j.updates.closed <;> simp
    unfold Job.SetProgress Channel.trySendFlag at h
    simp [hcl'] at h

lemma runWork_spec (calls : List Int) (j : Job)
    (hcl : j.updates.closed = false) :
    ∃ j', runWork j calls = some j' ∧
      j'.Status = j.Status ∧ j'.Error = j.Error ∧ j'.ID = j.ID ∧
      j'.Name = j.Name ∧ j'.cancelled = j.cancelled ∧
      j'.updates.closed = false ∧
      j'.updates.capacity = j.updates.capacity ∧
      j'.Progress = (calls.getLast?).getD j.Progress ∧
      ∃ ext, j'.updates.buffer = j.updates.buffer ++ ext ∧
        ext.length ≤ calls.length ∧
        ∀ u ∈ ext, u.Done = false ∧ u.Error = none := by
  induction calls generalizing j with
  | nil =>
    exact ⟨j, rfl, rfl, rfl, rfl, rfl, rfl, hcl, rfl, rfl,
      [], by simp, by simp, by simp⟩
  | cons p rest ih =>
    by_cases hlen : j.updates.buffer.length < j.updates.capacity
    · have hstep : j.SetProgress p =
          some { j with
                  Progress := p,
                  updates := { j.updates with
                    buffer := j.updates.buffer ++ [⟨p, false, none⟩] } } := by
        rw [setProgress_eq j p hcl]; simp [hlen]
      obtain ⟨j', hrun, hst, herr, hid, hnm, hcn, hclo, hcap, hprog,
        ext, hbuf, hextlen, hext⟩ :=
        ih { j with
              Progress := p,
              updates := { j.updates with
                buffer := j.updates.buffer ++ [⟨p, false, none⟩] } } hcl
      refine ⟨j', ?_, hst, herr, hid, hnm, hcn, hclo, hcap,
        ?_, ⟨p, false, none⟩ :: ext, ?_, Nat.succ_le_succ hextlen, ?_⟩
      · show (match j.SetProgress p with
              | none => none
              | some j1 => runWork j1 rest) = some j'
        rw [hstep]; exact hrun
      · rw [getLast?_cons_getD]; exact hprog
      · rw [hbuf]; simp
      · intro u hu
        rcases List.mem_cons.mp hu with h1 | h2
        · subst h1; exact ⟨rfl, rfl⟩
        · exact hext u h2
    · have hstep : j.SetProgress p = some { j with Progress := p } := by
        rw [setProgress_eq j p hcl]; simp [hlen]
      obtain ⟨j', hrun, hst, herr, hid, hnm, hcn, hclo, hcap, hprog,
        ext, hbuf, hextlen, hext⟩ := ih { j with Progress := p } hcl
      refine ⟨j', ?_, hst, herr, hid, hnm, hcn, hclo, hcap,
        ?_, ext, hbuf, Nat.le_succ_of_le hextlen, hext⟩
      · show (match j.SetProgress p with
              | none => none
              | some j1 => runWork j1 rest) = some j'
        rw [hstep]; exact hrun
      · rw [getLast?_cons_getD]; exact hprog

lemma execute_ok_closed {j : Job} {w : Work} {j' : Job}
    (h : execute j w = .ok j') : j.updates.closed = false := by
  by_cases hcl : j.updates.closed = false
  · exact hcl
  · exfalso
    have hcl' : j.updates.closed = true := by
      revert hcl; cases j.updates.closed <;> simp
    cases hres : w.result with
    | none =>
      cases hw : w.progressCalls with
      | nil =>
        unfold execute executeBody at h
        rw [hw, hres] at h
        simp [runWork, afterWork, Channel.send, markRunning,
          Except.bind, hcl'] at h
      | cons p rest =>
        unfold execute executeBody at h
        rw [hw] at h
        simp [runWork, Job.SetProgress, Channel.trySendFlag, markRunning,
          Except.bind, hcl'] at h
    | some e =>
      cases hw : w.progressCalls with
      | nil =>
        unfold execute executeBody at h
        rw [hw, hres] at h
        simp [runWork, afterWork, Channel.send, markRunning,
          Except.bind, hcl'] at h
      | cons p rest =>
        unfold execute executeBody at h
        rw [hw] at h
        simp [runWork, Job.SetProgress, Channel.trySendFlag, markRunning,
          Except.bind, hcl'] at h

lemma execute_ok_spec {j : Job} {w : Work} {j' : Job}
    (hcl : j.updates.closed = false) (h : execute j w = .ok j') :
    j'.ID = j.ID ∧ j'.Name = j.Name ∧ j'.cancelled = j.cancelled ∧
      j'.updates.closed = true ∧
      j'.updates.capacity = j.updates.capacity ∧
      ((j'.Status = "completed" ∧ w.result = none ∧ j'.Progress = 100 ∧
          j'.Error = j.Error) ∨
        (j'.Status = "failed" ∧
          (∃ e, w.result = some e ∧ j'.Error = some e) ∧
          j'.Progress = (w.progressCalls.getLast?).getD j.Progress)) ∧
      ∃ ext, j'.updates.buffer =
          j.updates.buffer ++ ext ++ [⟨j'.Progress, true, w.result⟩] ∧
        ∀ u ∈ ext, u.Done = false ∧ u.Error = none := by
  obtain ⟨j2, hrun, hst, herr, hid, hnm, hcn, hclo, hcap, hprog,
    ext, hbuf, hextlen, hext⟩ :=
    runWork_spec w.progressCalls (markRunning j) hcl
  unfold execute executeBody at h
  rw [hrun] at h
  cases hres : w.result with
  | none =>
    rw [hres] at h
    by_cases hlen : j2.updates.buffer.length < j2.updates.capacity
    · simp only [afterWork, Channel.send, hclo, Bool.false_eq_true,
        if_false, hlen, if_true, Except.bind, closeUpdates,
        Channel.closeCh] at h
      injection h with h
      subst h
      refine ⟨hid, hnm, hcn, rfl, hcap, Or.inl ⟨rfl, rfl, rfl, herr⟩,
        ext, ?_, hext⟩
      rw [hbuf]; rfl
    · simp only [afterWork, Channel.send, hclo, Bool.false_eq_true,
        if_false, hlen, Except.bind] at h
      exact Except.noConfusion h
  | some e =>
    rw [hres] at h
    by_cases hlen : j2.updates.buffer.length < j2.updates.capacity
    · simp only [afterWork, Channel.send, hclo, Bool.false_eq_true,
        if_false, hlen, if_true, Except.bind, closeUpdates,
        Channel.closeCh] at h
      injection h with h
      subst h
      refine ⟨hid, hnm, hcn, rfl, hcap,
        Or.inr ⟨rfl, ⟨e, rfl, rfl⟩, hprog⟩, ext, ?_, hext⟩
      rw [hbuf]; rfl
    · simp only [afterWork, Channel.send, hclo, Bool.false_eq_true,
        if_false, hlen, Except.bind] at h
      exact Except.noConfusion h

lemma execute_closed_fault {j : Job} {w : Work}
    (hcl : j.updates.closed = true) :
    execute j w = .error .sendOnClosed := by
  cases hw : w.progressCalls with
  | nil =>
    cases hres : w.result with
    | none =>
      unfold execute executeBody
      rw [hw, hres]
      simp [runWork, afterWork, Channel.send, markRunning, Except.bind, hcl]
    | some e =>
      unfold execute executeBody
      rw [hw, hres]
      simp [runWork, afterWork, Channel.send, markRunning, Except.bind, hcl]
  | cons p rest =>
    unfold execute executeBody
    rw [hw]
    simp [runWork, Job.SetProgress, Channel.trySendFlag, markRunning,
      Except.bind, hcl]

lemma closeUpdates_open {j : Job} (hcl : j.updates.closed = false) :
    closeUpdates j =
      .ok { j with updates := { j.updates with closed := true } } := by
  simp [closeUpdates, Channel.closeCh, hcl]

lemma closeUpdates_closed {j : Job} (hcl : j.updates.closed = true) :
    closeUpdates j = .error .closeOfClosed := by
  simp [closeUpdates, Channel.closeCh, hcl]

lemma executeBody_spec (j : Job) (w : Work)
    (hcl : j.updates.closed = false)
    (hroom : j.updates.buffer.length + w.progressCalls.length + 1 ≤
      j.updates.capacity) :
    ∃ j1, executeBody j w = .ok j1 ∧ j1.updates.closed = false ∧
      j1.updates.capacity = j.updates.capacity ∧
      j1.updates.buffer.length ≤
        j.updates.buffer.length + w.progressCalls.length + 1 ∧
      (j1.updates.buffer.filter (fun u => u.Done)).length =
        (j.updates.buffer.filter (fun u => u.Done)).length + 1 := by
  obtain ⟨j2, hrun, hst, herr, hid, hnm, hcn, hclo, hcap, hprog,
    ext, hbuf, hextlen, hext⟩ :=
    runWork_spec w.progressCalls (markRunning j) hcl
  have hlen2 : j2.updates.buffer.length < j2.updates.capacity := by
    rw [hbuf, hcap]
    have h1 : (markRunning j).updates.buffer.length =
        j.updates.buffer.length := rfl
    have h2 : (markRunning j).updates.capacity = j.updates.capacity := rfl
    rw [List.length_append, h1, h2]
    omega
  unfold executeBody
  rw [hrun]
  cases hres : w.result with
  | none =>
    simp only [afterWork, Channel.send, hclo, Bool.false_eq_true, if_false,
      hlen2, if_true]
    refine ⟨_, rfl, rfl, hcap, ?_, ?_⟩
    · have : (j2.updates.buffer ++
          [(⟨100, true, none⟩ : JobUpdate)]).length =
          j2.updates.buffer.length + 1 := by simp
      rw [hbuf] at this
      simp only [this, hbuf]
      have h1 : (markRunning j).updates.buffer.length =
          j.updates.buffer.length := rfl
      simp only [List.length_append, h1]
      omega
    · show ((j2.updates.buffer ++
          [(⟨100, true, none⟩ : JobUpdate)]).filter (fun u => u.Done)).length =
        (j.updates.buffer.filter (fun u => u.Done)).length + 1
      rw [List.filter_append, hbuf, List.filter_append]
      have hnil : ext.filter (fun u => u.Done) = [] :=
        List.filter_eq_nil_iff.mpr (fun u hu => by simp [(hext u hu).1])
      have h1 : (markRunning j).updates.buffer = j.updates.buffer := rfl
      simp [hnil, h1]
  | some e =>
    simp only [afterWork, Channel.send, hclo, Bool.false_eq_true, if_false,
      hlen2, if_true]
    refine ⟨_, rfl, rfl, hcap, ?_, ?_⟩
    · have : (j2.updates.buffer ++
          [(⟨j2.Progress, true, some e⟩ : JobUpdate)]).length =
          j2.updates.buffer.length + 1 := by simp
      rw [hbuf] at this
      simp only [this, hbuf]
      have h1 : (markRunning j).updates.buffer.length =
          j.updates.buffer.length := rfl
      simp only [List.length_append, h1]
      omega
    · show ((j2.updates.buffer ++
          [(⟨j2.Progress, true, some e⟩ : JobUpdate)]).filter
            (fun u => u.Done)).length =
        (j.updates.buffer.filter (fun u => u.Done)).length + 1
      rw [List.filter_append, hbuf, List.filter_append]
      have hnil : ext.filter (fun u => u.Done) = [] :=
        List.filter_eq_nil_iff.mpr (fun u hu => by simp [(hext u hu).1])
      have h1 : (markRunning j).updates.buffer = j.updates.buffer := rfl
      simp [hnil, h1]

lemma submit_some {h : Hub} {j : Job} {h' : Hub}
    (hs : h.Submit j = some h') :
    h'.jobs = (j.ID, j) :: h.jobs ∧ h.submit.closed = false ∧
      h'.submit.closed = false ∧
      h'.submit.capacity = h.submit.capacity ∧
      h'.done = h.done ∧
      ((h.submit.buffer.length < h.submit.capacity ∧
          h'.submit.buffer = h.submit.buffer ++ [j.ID] ∧
          h'.warnings = h.warnings) ∨
        (¬ h.submit.buffer.length < h.submit.capacity ∧
          h'.submit.buffer = h.submit.buffer ∧
          h'.warnings = h.warnings ++ [ ("job queue full", j.ID) ])) := by
  by_cases hcl : h.submit.closed = false
  · by_cases hlen : h.submit.buffer.length < h.submit.capacity
    · unfold Hub.Submit Channel.trySendFlag at hs
      simp only [hcl, Bool.false_eq_true, if_false, hlen, if_true] at hs
      obtain rfl := (Option.some_injective _ hs).symm
      exact ⟨rfl, hcl, rfl, rfl, rfl, Or.inl ⟨hlen, rfl, rfl⟩⟩
    · unfold Hub.Submit Channel.trySendFlag at hs
      simp only [hcl, Bool.false_eq_true, if_false, hlen] at hs
      obtain rfl := (Option.some_injective _ hs).symm
      exact ⟨rfl, hcl, hcl, rfl, rfl, Or.inr ⟨hlen, rfl, rfl⟩⟩
  · exfalso
    have hcl' : h.submit.closed = true := by
      revert hcl; cases h.submit.closed <;> simp
    unfold Hub.Submit Channel.trySendFlag at hs
    simp [hcl'] at hs

lemma submit_total (h : Hub) (j : Job) (hcl : h.submit.closed = false) :
    ∃ h', h.Submit j = some h' := by
  unfold Hub.Submit Channel.trySendFlag
  by_cases hlen : h.submit.buffer.length < h.submit.capacity <;>
    simp [hcl, hlen]

lemma reach_status_closed {j : Job} (h : Reach j) :
    (j.Status = "pending" ∧ j.updates.closed = false) ∨
      ((j.Status = "completed" ∨ j.Status = "failed") ∧
        j.updates.closed = true) := by
  induction h with
  | fresh id name => exact Or.inl ⟨rfl, rfl⟩
  | step hr hs ih =>
    rename_i j j'
    cases hs with
    | setP p jq hsp =>
      obtain ⟨hbefore, hst, hafter, _, _⟩ := setProgress_some hsp
      rcases ih with ⟨hp, _⟩ | ⟨_, hclo⟩
      · exact Or.inl ⟨hst.trans hp, hafter⟩
      · rw [hclo] at hbefore; exact absurd hbefore (by simp)
    | canc => simpa [Job.Cancel] using ih
    | exec w jq hex =>
      have hcl := execute_ok_closed hex
      obtain ⟨_, _, _, hclosed, _, hdisj, _⟩ := execute_ok_spec hcl hex
      rcases hdisj with ⟨hst, _⟩ | ⟨hst, _⟩
      · exact Or.inr ⟨Or.inl hst, hclosed⟩
      · exact Or.inr ⟨Or.inr hst, hclosed⟩

lemma runWork_progress (calls : List Int) :
    ∀ j j' : Job, runWork j calls = some j' →
      j'.Progress = (calls.getLast?).getD j.Progress := by
  induction calls with
  | nil =>
    intro j j' h
    obtain rfl : j = j' := Option.some_injective _ h
    simp
  | cons p rest ih =>
    intro j j' h
    rw [show runWork j (p :: rest) =
          (match j.SetProgress p with
            | none => none
            | some j1 => runWork j1 rest) from rfl] at h
    cases hsp : j.SetProgress p with
    | none => rw [hsp] at h; exact absurd h (by simp)
    | some j1 =>
      rw [hsp] at h
      obtain ⟨_, _, _, hp, _⟩ := setProgress_some hsp
      rw [ih j1 j' h, getLast?_cons_getD, hp]

/-! ## Claims -/

/-- C1: for every job dispatched exactly once (a fresh job whose single
`execute` run returns), the update stream contains exactly one terminal
update (`Done = true`); that terminal update is the last value in the
stream; the stream is closed after it; and a read past the drained,
closed stream yields no further values. -/
theorem C1_single_terminal_update (id name : String) (w : Work) (j' : Job)
    (h : execute (newJob id name) w = .ok j') :
    (j'.updates.buffer.filter (fun u => u.Done)).length = 1 ∧
      (∃ l t, j'.updates.buffer = l ++ [t] ∧ t.Done = true ∧
        ∀ u ∈ l, u.Done = false) ∧
      j'.updates.closed = true ∧
      Channel.recv { j'.updates with buffer := ([] : List JobUpdate) } =
        .closedEmpty := by
  obtain ⟨hid, hnm, hcn, hclosed, hcap, hdisj, ext, hbuf, hext⟩ :=
    execute_ok_spec (j := newJob id name) rfl h
  have hbuf' : j'.updates.buffer =
      ext ++ [⟨j'.Progress, true, w.result⟩] := by
    simpa [newJob] using hbuf
  refine ⟨?_, ⟨ext, ⟨j'.Progress, true, w.result⟩, hbuf', rfl,
    fun u hu => (hext u hu).1⟩, hclosed, ?_⟩
  · rw [hbuf', List.filter_append]
    have hnil : ext.filter (fun u => u.Done) = [] :=
      List.filter_eq_nil_iff.mpr (fun u hu => by simp [(hext u hu).1])
    simp [hnil]
  · simp [Channel.recv, hclosed]

/-- C2: after the work function returns (and `execute` completes), the
status is `completed` iff the work returned no error; on an error the
status is `failed` with the error recorded; and `completed` implies
progress is exactly 100. -/
theorem C2_terminal_status_iff (id name : String) (w : Work) (j' : Job)
    (h : execute (newJob id name) w = .ok j') :
    (j'.Status = "completed" ↔ w.result = none) ∧
      (∀ e, w.result = some e →
        j'.Status = "failed" ∧ j'.Error = some e) ∧
      (j'.Status = "completed" → j'.Progress = 100) := by
  obtain ⟨_, _, _, _, _, hdisj, _⟩ :=
    execute_ok_spec (j := newJob id name) rfl h
  rcases hdisj with ⟨hst, hres, hprog, _⟩ | ⟨hst, ⟨e, hres, herr⟩, _⟩
  · refine ⟨⟨fun _ => hres, fun _ => hst⟩, ?_, fun _ => hprog⟩
    intro e he
    rw [hres] at he
    exact absurd he (by simp)
  · refine ⟨⟨?_, ?_⟩, ?_, ?_⟩
    · intro hc
      exact absurd (hst.symm.trans hc) (by decide)
    · intro hn
      rw [hres] at hn
      exact absurd hn (by simp)
    · intro e' he'
      rw [hres] at he'
      injection he' with hee
      subst hee
      exact ⟨hst, herr⟩
    · intro hc
      exact absurd (hst.symm.trans hc) (by decide)

/-- C3 (counterexample): the claim says every producing send — including
`execute`'s terminal-update push — is non-blocking with drop-on-overflow
and returns without blocking.  But the terminal push in `execute` is an
unconditional channel send: on a job whose work function issued 100
progress updates (filling the capacity-100 buffer, with no reader
draining), the terminal send finds the buffer full and the producer
blocks instead of dropping the update and returning. -/
theorem C3_counterexample :
    execute jobA ⟨List.replicate 100 0, none⟩ = .error .blocksForever :=
  rfl

/-- C3 (amended): `Submit` and `SetProgress` use non-blocking
send-with-drop on their channels and always return to the producer, but
`execute`'s terminal-update push is an unconditional (blocking) send:
it is never dropped, and on a full buffer with no concurrent reader it
blocks the producer. -/
theorem C3_amended_overflow_policy :
    (∀ (h : Hub) (j : Job), h.submit.closed = false →
      ∃ h', h.Submit j = some h') ∧
      (∀ (h : Hub) (j : Job), h.submit.closed = false →
        ¬ h.submit.buffer.length < h.submit.capacity →
        ∃ h', h.Submit j = some h' ∧
          h'.submit.buffer = h.submit.buffer) ∧
      (∀ (j : Job) (p : Int), j.updates.closed = false →
        ∃ j', j.SetProgress p = some j') ∧
      (∀ (j : Job) (p : Int), j.updates.closed = false →
        ¬ j.updates.buffer.length < j.updates.capacity →
        ∃ j', j.SetProgress p = some j' ∧
          j'.updates.buffer = j.updates.buffer) ∧
      (∀ (c : Channel JobUpdate) (u : JobUpdate), c.closed = false →
        ¬ c.buffer.length < c.capacity → c.send u = .wouldBlock) := by
  refine ⟨fun h j hcl => submit_total h j hcl, ?_, ?_, ?_, ?_⟩
  · intro h j hcl hfull
    obtain ⟨h', hs⟩ := submit_total h j hcl
    obtain ⟨_, _, _, _, _, hdisj⟩ := submit_some hs
    rcases hdisj with ⟨hlt, _, _⟩ | ⟨_, hbuf, _⟩
    · exact absurd hlt hfull
    · exact ⟨h', hs, hbuf⟩
  · intro j p hcl
    exact ⟨_, setProgress_eq j p hcl⟩
  · intro j p hcl hfull
    refine ⟨_, setProgress_eq j p hcl, ?_⟩
    simp [hfull]
  · intro c u hcl hfull
    simp [Channel.send, hcl, hfull]

/-- C4: `Get` finds exactly the previously submitted identifiers:
`Submit` makes its job's identifier retrievable (regardless of queue
state), leaves every other lookup unchanged, `Stop` preserves
found-ness, and on a fresh hub every lookup is not-found. -/
theorem C4_get_iff_submitted :
    (∀ (h : Hub) (j : Job) (h' : Hub), h.Submit j = some h' →
      h'.Get j.ID = some j) ∧
      (∀ (h : Hub) (j : Job) (h' : Hub) (x : String),
        h.Submit j = some h' → x ≠ j.ID → h'.Get x = h.Get x) ∧
      (∀ (h h' : Hub) (x : String), h.Stop = some h' →
        (h'.Get x).isSome = (h.Get x).isSome) ∧
      (∀ x, NewHub.Get x = none) := by
  refine ⟨?_, ?_, ?_, fun x => rfl⟩
  · intro h j h' hs
    obtain ⟨hjobs, _⟩ := submit_some hs
    simp [Hub.Get, hjobs]
  · intro h j h' x hs hx
    obtain ⟨hjobs, _⟩ := submit_some hs
    have hne : ¬ (j.ID = x) := fun hh => hx hh.symm
    simp [Hub.Get, hjobs, hne]
  · intro h h' x hs
    by_cases hcl : h.done.closed = false
    · have : h.Stop = some { h with
          done := { h.done with closed := true },
          jobs := h.jobs.map (fun e => (e.1, e.2.Cancel)) } := by
        simp [Hub.Stop, Channel.closeCh, hcl]
      rw [this] at hs
      obtain rfl := (Option.some_injective _ hs).symm
      simp only [Hub.Get, List.find?_map]
      rw [show ((fun (e : String × Job) => decide (e.1 = x)) ∘
            fun (e : String × Job) => (e.1, e.2.Cancel)) =
          (fun (e : String × Job) => decide (e.1 = x)) from rfl]
      cases List.find? (fun (e : String × Job) => decide (e.1 = x)) h.jobs <;>
        rfl
    · exfalso
      have hcl' : h.done.closed = true := by
        revert hcl; cases h.done.closed <;> simp
      unfold Hub.Stop Channel.closeCh at hs
      simp [hcl'] at hs

/-- C5: a `Submit` against a full admission queue returns normally with
no error, logs a warning, leaves the job registered with status
`pending` and retrievable via `Get`, and does not enqueue it (so the
dispatch loop never sees it). -/
theorem C5_full_queue_drop (h : Hub) (j : Job)
    (hcl : h.submit.closed = false)
    (hfull : ¬ h.submit.buffer.length < h.submit.capacity)
    (hpend : j.Status = "pending") :
    ∃ h', h.Submit j = some h' ∧
      h'.Get j.ID = some j ∧
      (h'.Get j.ID).map Job.Status = some "pending" ∧
      h'.submit.buffer = h.submit.buffer ∧
      h'.warnings = h.warnings ++ [ ("job queue full", j.ID) ] := by
  obtain ⟨h', hs⟩ := submit_total h j hcl
  obtain ⟨hjobs, _, _, _, _, hdisj⟩ := submit_some hs
  rcases hdisj with ⟨hlt, _, _⟩ | ⟨_, hbuf, hwarn⟩
  · exact absurd hlt hfull
  · have hget : h'.Get j.ID = some j := by simp [Hub.Get, hjobs]
    exact ⟨h', hs, hget, by simp [hget, hpend], hbuf, hwarn⟩

/-- C6: `SetProgress p` stores `p` in the progress field and then tries
a non-blocking send of a progress-only update, silently dropped when the
buffer is full; and after any sequence of `SetProgress` calls completes,
the progress field equals the argument of the last call in program
order, even when stream updates were dropped. -/
theorem C6_progress_field_authoritative :
    (∀ (j : Job) (p : Int), j.updates.closed = false →
      ∃ j', j.SetProgress p = some j' ∧ j'.Progress = p ∧
        ((j.updates.buffer.length < j.updates.capacity ∧
            j'.updates.buffer =
              j.updates.buffer ++ [⟨p, false, none⟩]) ∨
          (¬ j.updates.buffer.length < j.updates.capacity ∧
            j'.updates.buffer = j.updates.buffer))) ∧
      (∀ (j : Job) (calls : List Int) (j' : Job),
        runWork j calls = some j' →
        j'.Progress = (calls.getLast?).getD j.Progress) := by
  constructor
  · intro j p hcl
    refine ⟨_, setProgress_eq j p hcl, rfl, ?_⟩
    by_cases hlen : j.updates.buffer.length < j.updates.capacity
    · exact Or.inl ⟨hlen, by simp [hlen]⟩
    · exact Or.inr ⟨hlen, by simp [hlen]⟩
  · exact fun j calls j' h => runWork_progress calls j j' h

/-- C7: `Stop` closes the done channel (signalling the dispatch loop to
exit) and cancels every job in the registry regardless of status; it
does not touch any job's status (it does not wait for work functions);
and a second `Stop` hits the close-of-closed panic instead of being
idempotent. -/
theorem C7_stop_cancels_all (h : Hub) (hcl : h.done.closed = false) :
    ∃ h', h.Stop = some h' ∧ h'.done.closed = true ∧
      (∀ e ∈ h'.jobs, e.2.cancelled = true) ∧
      h'.jobs.map (fun e => (e.1, e.2.Status)) =
        h.jobs.map (fun e => (e.1, e.2.Status)) ∧
      h'.Stop = none := by
  have hstop : h.Stop =
      some { h with done := { h.done with closed := true },
                    jobs := h.jobs.map (fun e => (e.1, e.2.Cancel)) } := by
    simp [Hub.Stop, Channel.closeCh, hcl]
  refine ⟨_, hstop, rfl, ?_, ?_, ?_⟩
  · intro e he
    simp only [List.mem_map] at he
    obtain ⟨e0, _, rfl⟩ := he
    rfl
  · show (h.jobs.map (fun e => (e.1, e.2.Cancel))).map
        (fun e => (e.1, e.2.Status)) =
      h.jobs.map (fun e => (e.1, e.2.Status))
    rw [List.map_map]
    rfl
  · simp [Hub.Stop, Channel.closeCh]

/-- C8: the job status follows the state machine
`pending → running → {completed, failed}`: a fresh job is `pending`;
`SetProgress` and `Cancel` never change the status; `execute` first
marks the job `running` and a normal return ends in exactly one of the
two terminal statuses; and from a reachable terminal state no step ever
changes the status again (in particular never back to `pending` or
`running`). -/
theorem C8_status_machine :
    (∀ id name, (newJob id name).Status = "pending") ∧
      (∀ (j : Job) (p : Int) (j' : Job), j.SetProgress p = some j' →
        j'.Status = j.Status) ∧
      (∀ j : Job, j.Cancel.Status = j.Status) ∧
      (∀ (j : Job) (w : Work) (j' : Job), execute j w = .ok j' →
        (markRunning j).Status = "running" ∧
        (j'.Status = "completed" ∨ j'.Status = "failed")) ∧
      (∀ j : Job, Reach j →
        (j.Status = "completed" ∨ j.Status = "failed") →
        ∀ j' : Job, JStep j j' → j'.Status = j.Status) := by
  refine ⟨fun _ _ => rfl, ?_, fun _ => rfl, ?_, ?_⟩
  · intro j p j' hsp
    exact (setProgress_some hsp).2.1
  · intro j w j' hex
    have hcl := execute_ok_closed hex
    obtain ⟨_, _, _, _, _, hdisj, _⟩ := execute_ok_spec hcl hex
    refine ⟨rfl, ?_⟩
    rcases hdisj with ⟨hst, _⟩ | ⟨hst, _⟩
    · exact Or.inl hst
    · exact Or.inr hst
  · intro j hreach hterm j' hstep
    have hclosed : j.updates.closed = true := by
      rcases reach_status_closed hreach with ⟨hp, _⟩ | ⟨_, hc⟩
      · rcases hterm with hc | hc <;>
          · rw [hp] at hc
            exact absurd hc (by decide)
      · exact hc
    cases hstep with
    | setP p jq hsp =>
      have hopen := (setProgress_some hsp).1
      rw [hclosed] at hopen
      exact absurd hopen (by simp)
    | canc => rfl
    | exec w jq hex =>
      have hopen := execute_ok_closed hex
      rw [hclosed] at hopen
      exact absurd hopen (by simp)

/-- C9 (counterexample): the claim says the stored progress always stays
within 0–100, but `SetProgress` stores its argument verbatim with no
clamping: passing 150 stores 150, outside the range. -/
theorem C9_counterexample :
    (jobA.SetProgress 150).map Job.Progress = some 150 ∧
      ¬ ((150 : Int) ≤ 100) :=
  ⟨rfl, by decide⟩

/-- C9 (amended): progress starts at 0 and stays within 0–100 provided
every argument passed to `SetProgress` lies within 0–100 (the range is a
convention on the work function, not enforced by the hub); a completed
job's progress is forced to 100, and a failed job keeps the last
in-range value. -/
theorem C9_progress_bounded_conditionally :
    (∀ id name, (newJob id name).Progress = 0) ∧
      (∀ (j : Job) (p : Int) (j' : Job), j.SetProgress p = some j' →
        0 ≤ p → p ≤ 100 → 0 ≤ j'.Progress ∧ j'.Progress ≤ 100) ∧
      (∀ (j : Job) (w : Work) (j' : Job), execute j w = .ok j' →
        0 ≤ j.Progress → j.Progress ≤ 100 →
        (∀ p ∈ w.progressCalls, 0 ≤ p ∧ p ≤ 100) →
        0 ≤ j'.Progress ∧ j'.Progress ≤ 100) := by
  refine ⟨fun _ _ => rfl, ?_, ?_⟩
  · intro j p j' hsp h0 h1
    obtain ⟨_, _, _, hp, _⟩ := setProgress_some hsp
    rw [hp]
    exact ⟨h0, h1⟩
  · intro j w j' hex h0 h1 hbound
    have hcl := execute_ok_closed hex
    obtain ⟨_, _, _, _, _, hdisj, _⟩ := execute_ok_spec hcl hex
    rcases hdisj with ⟨_, _, hprog, _⟩ | ⟨_, _, hprog⟩
    · rw [hprog]; exact ⟨by decide, le_refl _⟩
    · rw [hprog]
      cases hlast : w.progressCalls.getLast? with
      | none => simpa using ⟨h0, h1⟩
      | some a =>
        have ha := hbound a (List.mem_of_getLast?_eq_some hlast)
        simpa using ha

/-- C10: `Submit` is not protected against duplicate submission: two
`Submit` calls with the same job (queue having space) enqueue it twice,
so the dispatch loop runs `execute` twice for it; in the interleaving
where both runs reach their terminal push before either close, two
terminal updates are produced and the second close hits the
close-of-closed panic (a fatal fault); and sequentially, a second
`execute` after a completed one panics sending on the closed channel —
so the single-terminal-update invariant needs the at-most-once-submitted
precondition. -/
theorem C10_double_submit_fatal :
    (∀ (h : Hub) (j : Job), h.submit.closed = false →
      h.submit.buffer.length + 1 < h.submit.capacity →
      ∃ h₁ h₂, h.Submit j = some h₁ ∧ h₁.Submit j = some h₂ ∧
        h₂.submit.buffer = h.submit.buffer ++ [j.ID, j.ID]) ∧
      (∀ (id name : String) (w₁ w₂ : Work),
        w₁.progressCalls.length + w₂.progressCalls.length + 2 ≤ 100 →
        ∃ j₁ j₂ j₃, executeBody (newJob id name) w₁ = .ok j₁ ∧
          executeBody j₁ w₂ = .ok j₂ ∧
          (j₂.updates.buffer.filter (fun u => u.Done)).length = 2 ∧
          closeUpdates j₂ = .ok j₃ ∧
          closeUpdates j₃ = .error .closeOfClosed) ∧
      (∀ (j : Job) (w₁ w₂ : Work) (j' : Job), execute j w₁ = .ok j' →
        execute j' w₂ = .error .sendOnClosed) := by
  refine ⟨?_, ?_, ?_⟩
  · intro h j hcl hroom
    obtain ⟨h₁, hs₁⟩ := submit_total h j hcl
    obtain ⟨_, _, hcl₁, hcap₁, _, hdisj₁⟩ := submit_some hs₁
    rcases hdisj₁ with ⟨hlt₁, hbuf₁, _⟩ | ⟨hge₁, _, _⟩
    · obtain ⟨h₂, hs₂⟩ := submit_total h₁ j hcl₁
      obtain ⟨_, _, _, _, _, hdisj₂⟩ := submit_some hs₂
      rcases hdisj₂ with ⟨hlt₂, hbuf₂, _⟩ | ⟨hge₂, _, _⟩
      · refine ⟨h₁, h₂, hs₁, hs₂, ?_⟩
        rw [hbuf₂, hbuf₁]
        simp
      · exfalso
        apply hge₂
        rw [hbuf₁, hcap₁, List.length_append]
        simpa using hroom
    · exact absurd (Nat.lt_of_succ_lt hroom) hge₁
  · intro id name w₁ w₂ hroom
    obtain ⟨j₁, hb₁, hcl₁, hcap₁, hlen₁, hfilter₁⟩ :=
      executeBody_spec (newJob id name) w₁ rfl
        (by simp [newJob]; omega)
    have hcap0 : (newJob id name).updates.capacity = 100 := rfl
    have hbuf0 : (newJob id name).updates.buffer.length = 0 := rfl
    obtain ⟨j₂, hb₂, hcl₂, hcap₂, hlen₂, hfilter₂⟩ :=
      executeBody_spec j₁ w₂ hcl₁
        (by rw [hcap₁, hcap0]; omega)
    have hfilter0 :
        (((newJob id name).updates.buffer).filter
          (fun u => u.Done)).length = 0 := rfl
    refine ⟨j₁, j₂, _, hb₁, hb₂, by omega, closeUpdates_open hcl₂, ?_⟩
    exact closeUpdates_closed rfl
  · intro j w₁ w₂ j' hex
    have hcl := execute_ok_closed hex
    obtain ⟨_, _, _, hclosed, _⟩ := execute_ok_spec hcl hex
    exact execute_closed_fault hclosed

/-! ## Witnesses -/

/-- C1 witness at a concrete run: one progress call, successful work. -/
theorem C1_witness :
    execute jobA ⟨[30], none⟩ = .ok jobDone ∧
      (jobDone.updates.buffer.filter (fun u => u.Done)).length = 1 ∧
      jobDone.updates.closed = true :=
  have hex : execute jobA ⟨[30], none⟩ = .ok jobDone := rfl
  have hmain := C1_single_terminal_update "a" "b" ⟨[30], none⟩ jobDone hex
  ⟨hex, hmain.1, hmain.2.2.1⟩

/-- C2 witness at a concrete run: the work function fails. -/
theorem C2_witness :
    execute jobA ⟨[30], some "boom"⟩ = .ok jobFailed ∧
      jobFailed.Status = "failed" ∧ jobFailed.Error = some "boom" :=
  have hex : execute jobA ⟨[30], some "boom"⟩ = .ok jobFailed := rfl
  have hmain :=
    C2_terminal_status_iff "a" "b" ⟨[30], some "boom"⟩ jobFailed hex
  ⟨hex, hmain.2.1 "boom" rfl⟩

/-- C3 (amended) witness at concrete channels, both roomy and full. -/
theorem C3_amended_witness :
    (∃ h', NewHub.Submit jobA = some h') ∧
      (∃ h', hubFull.Submit jobA = some h' ∧
        h'.submit.buffer = hubFull.submit.buffer) ∧
      (∃ j', jobA.SetProgress 7 = some j') ∧
      (∃ j', jobFull.SetProgress 7 = some j' ∧
        j'.updates.buffer = jobFull.updates.buffer) ∧
      jobFull.updates.send ⟨0, true, none⟩ = .wouldBlock :=
  ⟨C3_amended_overflow_policy.1 NewHub jobA rfl,
    C3_amended_overflow_policy.2.1 hubFull jobA rfl (by decide),
    C3_amended_overflow_policy.2.2.1 jobA 7 rfl,
    C3_amended_overflow_policy.2.2.2.1 jobFull 7 rfl (by decide),
    C3_amended_overflow_policy.2.2.2.2 jobFull.updates ⟨0, true, none⟩
      rfl (by decide)⟩

/-- C4 witness at a concrete hub with one submitted job. -/
theorem C4_witness :
    hubOne.Get jobA.ID = some jobA ∧
      hubOne.Get "zzz" = NewHub.Get "zzz" ∧
      (hubOneStopped.Get "a").isSome = (hubOne.Get "a").isSome ∧
      NewHub.Get "zzz" = none :=
  have hs : NewHub.Submit jobA = some hubOne := rfl
  have hstop : hubOne.Stop = some hubOneStopped := rfl
  ⟨C4_get_iff_submitted.1 NewHub jobA hubOne hs,
    C4_get_iff_submitted.2.1 NewHub jobA hubOne "zzz" hs (by decide),
    C4_get_iff_submitted.2.2.1 hubOne hubOneStopped "a" hstop,
    C4_get_iff_submitted.2.2.2 "zzz"⟩

/-- C5 witness: submitting a fresh pending job against the full hub. -/
theorem C5_witness :
    ∃ h', hubFull.Submit jobA = some h' ∧
      h'.Get jobA.ID = some jobA ∧
      (h'.Get jobA.ID).map Job.Status = some "pending" ∧
      h'.submit.buffer = hubFull.submit.buffer ∧
      h'.warnings = hubFull.warnings ++ [ ("job queue full", jobA.ID) ] :=
  C5_full_queue_drop hubFull jobA rfl (by decide) rfl

/-- C6 witness: one concrete call and a two-call run. -/
theorem C6_witness :
    (∃ j', jobA.SetProgress 42 = some j' ∧ j'.Progress = 42 ∧
      ((jobA.updates.buffer.length < jobA.updates.capacity ∧
          j'.updates.buffer =
            jobA.updates.buffer ++ [⟨42, false, none⟩]) ∨
        (¬ jobA.updates.buffer.length < jobA.updates.capacity ∧
          j'.updates.buffer = jobA.updates.buffer))) ∧
      jobMid.Progress = (([10, 20] : List Int).getLast?).getD
        jobA.Progress :=
  ⟨C6_progress_field_authoritative.1 jobA 42 rfl,
    C6_progress_field_authoritative.2 jobA [10, 20] jobMid rfl⟩

/-- C7 witness: stopping the hub holding one registered job. -/
theorem C7_witness :
    ∃ h', hubOne.Stop = some h' ∧ h'.done.closed = true ∧
      (∀ e ∈ h'.jobs, e.2.cancelled = true) ∧
      h'.jobs.map (fun e => (e.1, e.2.Status)) =
        hubOne.jobs.map (fun e => (e.1, e.2.Status)) ∧
      h'.Stop = none :=
  C7_stop_cancels_all hubOne rfl

/-- C8 witness: each transition exercised on concrete jobs, and a step
taken from a reachable terminal state. -/
theorem C8_witness :
    (newJob "a" "b").Status = "pending" ∧
      jobOne.Status = jobA.Status ∧
      jobA.Cancel.Status = jobA.Status ∧
      ((markRunning jobA).Status = "running" ∧
        (jobDone.Status = "completed" ∨ jobDone.Status = "failed")) ∧
      jobDone.Cancel.Status = jobDone.Status :=
  have hex : execute jobA ⟨[30], none⟩ = .ok jobDone := rfl
  have hreach : Reach jobDone :=
    Reach.step (Reach.fresh "a" "b")
      (JStep.exec jobA ⟨[30], none⟩ jobDone hex)
  ⟨C8_status_machine.1 "a" "b",
    C8_status_machine.2.1 jobA 10 jobOne rfl,
    C8_status_machine.2.2.1 jobA,
    C8_status_machine.2.2.2.1 jobA ⟨[30], none⟩ jobDone hex,
    C8_status_machine.2.2.2.2 jobDone hreach (Or.inl rfl)
      jobDone.Cancel (JStep.canc jobDone)⟩

/-- C9 (amended) witness: a bounded call and a bounded full run. -/
theorem C9_amended_witness :
    (newJob "a" "b").Progress = 0 ∧
      (0 ≤ jobFifty.Progress ∧ jobFifty.Progress ≤ 100) ∧
      (0 ≤ jobDone.Progress ∧ jobDone.Progress ≤ 100) :=
  ⟨C9_progress_bounded_conditionally.1 "a" "b",
    C9_progress_bounded_conditionally.2.1 jobA 50 jobFifty rfl
      (by decide) (by decide),
    C9_progress_bounded_conditionally.2.2 jobA ⟨[30], none⟩ jobDone rfl
      (by decide) (by decide) (by decide)⟩

/-- C10 witness: double submit on the fresh hub, the double-execute
interleaving with trivial work functions, and a sequential re-execute of
the completed sample job. -/
theorem C10_witness :
    (∃ h₁ h₂, NewHub.Submit jobA = some h₁ ∧ h₁.Submit jobA = some h₂ ∧
      h₂.submit.buffer = NewHub.submit.buffer ++ [jobA.ID, jobA.ID]) ∧
      (∃ j₁ j₂ j₃, executeBody (newJob "a" "b") ⟨[], none⟩ = .ok j₁ ∧
        executeBody j₁ ⟨[], none⟩ = .ok j₂ ∧
        (j₂.updates.buffer.filter (fun u => u.Done)).length = 2 ∧
        closeUpdates j₂ = .ok j₃ ∧
        closeUpdates j₃ = .error .closeOfClosed) ∧
      execute jobDone ⟨[], none⟩ = .error .sendOnClosed :=
  ⟨C10_double_submit_fatal.1 NewHub jobA rfl (by decide),
    C10_double_submit_fatal.2.1 "a" "b" ⟨[], none⟩ ⟨[], none⟩ (by decide),
    C10_double_submit_fatal.2.2 jobA ⟨[30], none⟩ ⟨[], none⟩ jobDone rfl⟩
